import Mathlib

/-!
# Shallow embedding of `libby-tag-from-goodreads`

This file embeds the core of the `gr2libby` reconciliation pipeline
(`src/main.rs`), the Libby catalog search / fuzzy matching logic
(`src/libby.rs`), and the browse enrichment / format-cache pipeline
(`src/browse.rs`) as executable Lean definitions, and proves the
specification's claims about them.

Modelling conventions:
* Rust `HashSet`/`HashMap` values are modelled as lists with set/map
  semantics (membership via `contains`, guarded insert, filter-based
  removal); all properties proved are insensitive to element order and
  duplication, matching the hash containers.
* The remote Libby service is modelled as an explicit deterministic
  oracle function passed to each operation; remote mutations (tag /
  untag) are modelled by counting the issued calls and by updating the
  modelled remote tag state.
* `buffer_unordered` completes operations in no guaranteed order, so the
  reconciliation loop is modelled as a fold over an explicit processing
  order; theorems that depend on it quantify over all permutations of
  the generated work list.
* Rust machine integers (`i64`, `usize`) are modelled as `Int`/`Nat`
  with explicit maximum constants where the code uses `i64::MAX` /
  `usize::MAX`; no arithmetic in the modelled code can overflow.
-/

/-- `normalize_title` from `src/main.rs` lines 96-102: keep alphanumeric and
whitespace characters, then lowercase. Rust iterates chars, so we work on
`List Char`. -/
def normalize_title (input : String) : String :=
  String.mk ((input.toList.filter (fun c => c.isAlphanum || c.isWhitespace)).map Char.toLower)

/-- `BookInfo` from `src/libby.rs` lines 127-131: a catalog item id together
with its display (sort) title. -/
structure BookInfo where
  libby_id : String
  title : String
deriving DecidableEq, Repr

/-- A Goodreads book record as consumed by the reconciliation loop
(`goodreads::BookInfo`, restricted to the fields `gr2libby` reads:
title and author set). -/
structure GBook where
  title : String
  authors : List String
deriving DecidableEq, Repr

/-- `TagAction` from `src/main.rs` lines 125-128. -/
inductive TagAction where
  | Add
  | Remove
deriving DecidableEq, Repr

/-- The per-book reconciliation outcomes printed by `gr2libby`
(spec §3 `ReconciliationOutcome`). -/
inductive Outcome where
  | AlreadyTaggedByTitle
  | AlreadyTaggedById
  | Tagged
  | Untagged
  | SkippedNotTagged
  | NotFound
deriving DecidableEq, Repr

/-- `HashSet::insert` on the existing-tag-id set, modelled on a list with
set semantics. -/
def setInsert (l : List String) (x : String) : List String :=
  if l.contains x then l else x :: l

/-- The deterministic remote-search oracle: `search_for_book_by_title`
keyed by title and author set, returning the matched catalog item or a
not-found error (`src/libby.rs` lines 519-532, modelled as `Option`). -/
def SearchOracle : Type := String → List String → Option BookInfo

/-- The in-flight state of one `gr2libby` run: the in-memory
existing-tag-id set, the modelled remote tag state (the books
`get_books_for_tag` would return), the number of remote tag/untag
mutation calls issued, the four summary counters, and the printed
per-book outcomes. -/
structure RunState where
  ids : List String
  remote : List BookInfo
  tagCalls : Nat
  untagCalls : Nat
  existing_ct : Nat
  newly_tagged_ct : Nat
  not_found_ct : Nat
  remove_ct : Nat
  outcomes : List Outcome
deriving DecidableEq, Repr

/-- One iteration of the `while let Some(...) = found_books.next()` loop of
`gr2libby` (`src/main.rs` lines 270-321): look up the search result for the
book, then branch on the action and on membership of the matched id in the
existing-tag-id set. Remote mutation calls are issued only when
`dryRun = false`; the counters, printed outcomes and in-memory id set are
updated unconditionally, exactly as in the source. -/
def reconcileStep (search : SearchOracle) (dryRun : Bool)
    (st : RunState) (w : TagAction × GBook) : RunState :=
  match search w.2.title w.2.authors with
  | some book_info =>
    if st.ids.contains book_info.libby_id then
      match w.1 with
      | .Add =>
        { st with existing_ct := st.existing_ct + 1,
                  outcomes := st.outcomes ++ [Outcome.AlreadyTaggedById] }
      | .Remove =>
        { st with remove_ct := st.remove_ct + 1,
                  outcomes := st.outcomes ++ [Outcome.Untagged],
                  untagCalls := if dryRun then st.untagCalls else st.untagCalls + 1,
                  remote := if dryRun then st.remote
                            else st.remote.filter (fun b => b.libby_id != book_info.libby_id),
                  ids := st.ids.filter (fun x => x != book_info.libby_id) }
    else
      match w.1 with
      | .Add =>
        { st with newly_tagged_ct := st.newly_tagged_ct + 1,
                  outcomes := st.outcomes ++ [Outcome.Tagged],
                  tagCalls := if dryRun then st.tagCalls else st.tagCalls + 1,
                  remote := if dryRun then st.remote else st.remote ++ [book_info],
                  ids := setInsert st.ids book_info.libby_id }
      | .Remove =>
        { st with outcomes := st.outcomes ++ [Outcome.SkippedNotTagged] }
  | none =>
    { st with not_found_ct := st.not_found_ct + 1,
              outcomes := st.outcomes ++ [Outcome.NotFound] }

/-- Process a batch of work items in a given completion order. -/
def processWork (search : SearchOracle) (dryRun : Bool)
    (order : List (TagAction × GBook)) (st : RunState) : RunState :=
  order.foldl (reconcileStep search dryRun) st

/-- The normalized titles of the books currently carrying the tag
(`existing_book_titles`, `src/main.rs` lines 184-187). -/
def existingTitles (remote : List BookInfo) : List String :=
  remote.map (fun b => normalize_title b.title)

/-- The work-item stream built in `src/main.rs` lines 222-247: shelf books
whose normalized title is not already tagged become `Add` items, and
remove-shelf books whose normalized title is already tagged become
`Remove` items. -/
def workItems (addBooks removeBooks : List GBook) (titles : List String) :
    List (TagAction × GBook) :=
  (addBooks.filter (fun b => !titles.contains (normalize_title b.title))).map
      (fun b => (TagAction.Add, b))
    ++ (removeBooks.filter (fun b => titles.contains (normalize_title b.title))).map
      (fun b => (TagAction.Remove, b))

/-- The state at the start of the processing loop: ids and remote state from
`get_books_for_tag`, zeroed counters, and one `AlreadyTaggedByTitle` outcome
printed for every shelf book filtered out by the title pre-check. -/
def initState (addBooks : List GBook) (tagged : List BookInfo) : RunState :=
  { ids := tagged.map (fun b => b.libby_id)
    remote := tagged
    tagCalls := 0
    untagCalls := 0
    existing_ct := 0
    newly_tagged_ct := 0
    not_found_ct := 0
    remove_ct := 0
    outcomes :=
      (addBooks.filter
        (fun b => (existingTitles tagged).contains (normalize_title b.title))).map
        (fun _ => Outcome.AlreadyTaggedByTitle) }

/-- One `gr2libby` reconciliation run processed in an explicit completion
order (the `buffer_unordered(25)` stream guarantees no order). -/
def gr2libbyRun (search : SearchOracle) (dryRun : Bool) (addBooks : List GBook)
    (tagged : List BookInfo) (order : List (TagAction × GBook)) : RunState :=
  processWork search dryRun order (initState addBooks tagged)

/-- One `gr2libby` reconciliation run in the canonical stream order
(`src/main.rs` lines 130-329, restricted to the reconciliation core). -/
def gr2libby (search : SearchOracle) (dryRun : Bool)
    (addBooks removeBooks : List GBook) (tagged : List BookInfo) : RunState :=
  gr2libbyRun search dryRun addBooks tagged
    (workItems addBooks removeBooks (existingTitles tagged))

example :
    (gr2libby (fun _ _ => none) false [⟨"A Book", ["x"]⟩] [] []).not_found_ct = 1 := by
  decide

/-! ## C2: the reconciliation state machine on a matched book -/

/-- **C2.** Reconciliation state machine on a matched catalog item
(`src/main.rs` lines 270-321, non-dry run): if the action is `Add` and the
item's id is already in the existing-tag-id set, the outcome is
`AlreadyTaggedById` and the state is otherwise untouched (in particular no
remote call is made); if `Add` and the id is absent, exactly one
tag-mutation call is issued and the id is then inserted into the set; if
`Remove` and the id is present, exactly one untag-mutation call is issued
and the id is then removed from the set; if `Remove` and the id is absent,
the outcome is `SkippedNotTagged` and no remote call is made. -/
theorem reconcile_state_machine (search : SearchOracle) (st : RunState) (b : GBook)
    (item : BookInfo) (h : search b.title b.authors = some item) :
    (st.ids.contains item.libby_id = true →
        reconcileStep search false st (TagAction.Add, b)
          = { st with existing_ct := st.existing_ct + 1,
                      outcomes := st.outcomes ++ [Outcome.AlreadyTaggedById] }
      ∧ reconcileStep search false st (TagAction.Remove, b)
          = { st with remove_ct := st.remove_ct + 1,
                      outcomes := st.outcomes ++ [Outcome.Untagged],
                      untagCalls := st.untagCalls + 1,
                      remote := st.remote.filter (fun x => x.libby_id != item.libby_id),
                      ids := st.ids.filter (fun x => x != item.libby_id) })
    ∧ (st.ids.contains item.libby_id = false →
        reconcileStep search false st (TagAction.Add, b)
          = { st with newly_tagged_ct := st.newly_tagged_ct + 1,
                      outcomes := st.outcomes ++ [Outcome.Tagged],
                      tagCalls := st.tagCalls + 1,
                      remote := st.remote ++ [item],
                      ids := setInsert st.ids item.libby_id }
      ∧ reconcileStep search false st (TagAction.Remove, b)
          = { st with outcomes := st.outcomes ++ [Outcome.SkippedNotTagged] }) := by
  constructor
  · intro hmem
    have hmem' : item.libby_id ∈ st.ids := by simpa using hmem
    constructor <;> simp [reconcileStep, h, hmem']
  · intro hmem
    have hmem' : item.libby_id ∉ st.ids := by simpa using hmem
    constructor <;> simp [reconcileStep, h, hmem']

/-- A concrete oracle used to instantiate the state-machine theorems. -/
def sampleSearch : SearchOracle :=
  fun t _ => if t = "the hobbit" then some ⟨"id77", "The Hobbit"⟩ else none

/-- Concrete state used to instantiate the state-machine theorems. -/
def sampleState : RunState := initState [] [⟨"id77", "The Hobbit"⟩]

/-- Witness for `reconcile_state_machine` at a concrete matched book whose
id is already tagged: the step yields `AlreadyTaggedById` and touches
nothing else. -/
theorem reconcile_state_machine_witness :
    reconcileStep sampleSearch false sampleState (TagAction.Add, ⟨"the hobbit", []⟩)
      = { sampleState with
            existing_ct := sampleState.existing_ct + 1,
            outcomes := sampleState.outcomes ++ [Outcome.AlreadyTaggedById] } :=
  ((reconcile_state_machine sampleSearch sampleState ⟨"the hobbit", []⟩
      ⟨"id77", "The Hobbit"⟩ (by decide)).1 (by decide)).1

/-! ## C9: dry-run frame property -/

/-- A dry-run step issues no remote call and evolves the id set, the
outcome list and all four counters exactly as the corresponding wet step. -/
theorem reconcileStep_dry_frame (search : SearchOracle) (std stw : RunState)
    (w : TagAction × GBook) (hids : std.ids = stw.ids)
    (houts : std.outcomes = stw.outcomes)
    (h1 : std.existing_ct = stw.existing_ct)
    (h2 : std.newly_tagged_ct = stw.newly_tagged_ct)
    (h3 : std.not_found_ct = stw.not_found_ct)
    (h4 : std.remove_ct = stw.remove_ct) :
    (reconcileStep search true std w).tagCalls = std.tagCalls
    ∧ (reconcileStep search true std w).untagCalls = std.untagCalls
    ∧ (reconcileStep search true std w).ids = (reconcileStep search false stw w).ids
    ∧ (reconcileStep search true std w).outcomes = (reconcileStep search false stw w).outcomes
    ∧ (reconcileStep search true std w).existing_ct = (reconcileStep search false stw w).existing_ct
    ∧ (reconcileStep search true std w).newly_tagged_ct
        = (reconcileStep search false stw w).newly_tagged_ct
    ∧ (reconcileStep search true std w).not_found_ct
        = (reconcileStep search false stw w).not_found_ct
    ∧ (reconcileStep search true std w).remove_ct = (reconcileStep search false stw w).remove_ct := by
  cases hsr : search w.2.title w.2.authors with
  | none => simp [reconcileStep, hsr, hids, houts, h1, h2, h3, h4]
  | some bi =>
    by_cases hc : bi.libby_id ∈ stw.ids <;>
      cases hw : w.1 <;>
        simp [reconcileStep, hsr, hids, houts, h1, h2, h3, h4, hc, hw]

/-- The fold of `reconcileStep` preserves the dry-run frame relation:
a dry run issues no mutation calls while its id set, outcomes and counters
track the wet run step for step. -/
theorem processWork_dry_frame (search : SearchOracle) :
    ∀ (order : List (TagAction × GBook)) (std stw : RunState),
    std.ids = stw.ids → std.outcomes = stw.outcomes →
    std.existing_ct = stw.existing_ct → std.newly_tagged_ct = stw.newly_tagged_ct →
    std.not_found_ct = stw.not_found_ct → std.remove_ct = stw.remove_ct →
    (processWork search true order std).tagCalls = std.tagCalls
    ∧ (processWork search true order std).untagCalls = std.untagCalls
    ∧ (processWork search true order std).ids = (processWork search false order stw).ids
    ∧ (processWork search true order std).outcomes = (processWork search false order stw).outcomes
    ∧ (processWork search true order std).existing_ct
        = (processWork search false order stw).existing_ct
    ∧ (processWork search true order std).newly_tagged_ct
        = (processWork search false order stw).newly_tagged_ct
    ∧ (processWork search true order std).not_found_ct
        = (processWork search false order stw).not_found_ct
    ∧ (processWork search true order std).remove_ct
        = (processWork search false order stw).remove_ct
  | [], std, stw => by
    intro hids houts h1 h2 h3 h4
    exact ⟨rfl, rfl, hids, houts, h1, h2, h3, h4⟩
  | w :: ws, std, stw => by
    intro hids houts h1 h2 h3 h4
    obtain ⟨ht, hu, hi, ho, he, hn, hnf, hr⟩ :=
      reconcileStep_dry_frame search std stw w hids houts h1 h2 h3 h4
    obtain ⟨rt, ru, ri, ro, re, rn, rnf, rr⟩ :=
      processWork_dry_frame search ws (reconcileStep search true std w)
        (reconcileStep search false stw w) hi ho he hn hnf hr
    refine ⟨?_, ?_, ?_, ?_, ?_, ?_, ?_, ?_⟩ <;>
      simp only [processWork, List.foldl_cons] at * <;>
      first
        | exact rt.trans ht
        | exact ru.trans hu
        | assumption

/-- **C9.** Dry-run frame property: with the dry-run flag set, `gr2libby`
issues zero tag-mutation and zero untag-mutation remote calls, while the
printed per-book outcomes, all four summary counters, and the in-memory
existing-tag-id set evolve exactly as in a non-dry run — for every
completion order of the concurrent search batch, and in particular for the
canonical stream order. -/
theorem gr2libby_dry_run_frame (search : SearchOracle) (addBooks removeBooks : List GBook)
    (tagged : List BookInfo) (order : List (TagAction × GBook)) :
    ((gr2libbyRun search true addBooks tagged order).tagCalls = 0
    ∧ (gr2libbyRun search true addBooks tagged order).untagCalls = 0
    ∧ (gr2libbyRun search true addBooks tagged order).ids
        = (gr2libbyRun search false addBooks tagged order).ids
    ∧ (gr2libbyRun search true addBooks tagged order).outcomes
        = (gr2libbyRun search false addBooks tagged order).outcomes
    ∧ (gr2libbyRun search true addBooks tagged order).existing_ct
        = (gr2libbyRun search false addBooks tagged order).existing_ct
    ∧ (gr2libbyRun search true addBooks tagged order).newly_tagged_ct
        = (gr2libbyRun search false addBooks tagged order).newly_tagged_ct
    ∧ (gr2libbyRun search true addBooks tagged order).not_found_ct
        = (gr2libbyRun search false addBooks tagged order).not_found_ct
    ∧ (gr2libbyRun search true addBooks tagged order).remove_ct
        = (gr2libbyRun search false addBooks tagged order).remove_ct)
    ∧ ((gr2libby search true addBooks removeBooks tagged).tagCalls = 0
    ∧ (gr2libby search true addBooks removeBooks tagged).untagCalls = 0
    ∧ (gr2libby search true addBooks removeBooks tagged).ids
        = (gr2libby search false addBooks removeBooks tagged).ids
    ∧ (gr2libby search true addBooks removeBooks tagged).outcomes
        = (gr2libby search false addBooks removeBooks tagged).outcomes
    ∧ (gr2libby search true addBooks removeBooks tagged).existing_ct
        = (gr2libby search false addBooks removeBooks tagged).existing_ct
    ∧ (gr2libby search true addBooks removeBooks tagged).newly_tagged_ct
        = (gr2libby search false addBooks removeBooks tagged).newly_tagged_ct
    ∧ (gr2libby search true addBooks removeBooks tagged).not_found_ct
        = (gr2libby search false addBooks removeBooks tagged).not_found_ct
    ∧ (gr2libby search true addBooks removeBooks tagged).remove_ct
        = (gr2libby search false addBooks removeBooks tagged).remove_ct) :=
  ⟨processWork_dry_frame search order (initState addBooks tagged)
      (initState addBooks tagged) rfl rfl rfl rfl rfl rfl,
    processWork_dry_frame search
      (workItems addBooks removeBooks (existingTitles tagged))
      (initState addBooks tagged) (initState addBooks tagged) rfl rfl rfl rfl rfl rfl⟩

/-! ## C1: idempotence of reconciliation -/

/-- Membership facts for the modelled `HashSet::insert`. -/
theorem mem_setInsert_self (l : List String) (x : String) : x ∈ setInsert l x := by
  unfold setInsert
  split
  · next h => simpa using h
  · exact List.mem_cons_self x l

/-- `setInsert` preserves membership. -/
theorem mem_setInsert_of_mem (l : List String) (x y : String) (h : y ∈ l) :
    y ∈ setInsert l x := by
  unfold setInsert
  split
  · exact h
  · exact List.mem_cons_of_mem x h

/-- Unfolding lemma for `processWork` on a cons cell. -/
theorem processWork_cons (search : SearchOracle) (dryRun : Bool)
    (w : TagAction × GBook) (ws : List (TagAction × GBook)) (st : RunState) :
    processWork search dryRun (w :: ws) st
      = processWork search dryRun ws (reconcileStep search dryRun st w) := rfl

/-- In a batch containing only `Add` work items, the existing-tag-id set
only grows: ids present at the start are still present at the end. -/
theorem processWork_add_ids_mono (search : SearchOracle) :
    ∀ (order : List (TagAction × GBook)) (st : RunState),
    (∀ w ∈ order, w.1 = TagAction.Add) →
    ∀ x ∈ st.ids, x ∈ (processWork search false order st).ids
  | [], st => by intro _ x hx; exact hx
  | w :: ws, st => by
    intro hadd x hx
    obtain ⟨a, b⟩ := w
    have ha : a = TagAction.Add := hadd _ (List.mem_cons_self _ _)
    subst ha
    rw [processWork_cons]
    refine processWork_add_ids_mono search ws _ (fun w hw => hadd w (List.mem_cons_of_mem _ hw)) x ?_
    cases hsr : search b.title b.authors with
    | none => simpa [reconcileStep, hsr] using hx
    | some bi =>
      by_cases hm : bi.libby_id ∈ st.ids
      · simpa [reconcileStep, hsr, hm] using hx
      · simp [reconcileStep, hsr, hm]
        exact mem_setInsert_of_mem _ _ _ hx

/-- In a batch containing only `Add` work items, the modelled remote tag
state only grows. -/
theorem processWork_add_remote_mono (search : SearchOracle) :
    ∀ (order : List (TagAction × GBook)) (st : RunState),
    (∀ w ∈ order, w.1 = TagAction.Add) →
    ∀ x ∈ st.remote, x ∈ (processWork search false order st).remote
  | [], st => by intro _ x hx; exact hx
  | w :: ws, st => by
    intro hadd x hx
    obtain ⟨a, b⟩ := w
    have ha : a = TagAction.Add := hadd _ (List.mem_cons_self _ _)
    subst ha
    rw [processWork_cons]
    refine processWork_add_remote_mono search ws _
      (fun w hw => hadd w (List.mem_cons_of_mem _ hw)) x ?_
    cases hsr : search b.title b.authors with
    | none => simpa [reconcileStep, hsr] using hx
    | some bi =>
      by_cases hm : bi.libby_id ∈ st.ids
      · simpa [reconcileStep, hsr, hm] using hx
      · simp [reconcileStep, hsr, hm, hx]

/-- Equation for `reconcileStep` when the remote search finds nothing. -/
theorem step_none (search : SearchOracle) (dryRun : Bool) (st : RunState)
    (w : TagAction × GBook) (hsr : search w.2.title w.2.authors = none) :
    reconcileStep search dryRun st w
      = { st with not_found_ct := st.not_found_ct + 1,
                  outcomes := st.outcomes ++ [Outcome.NotFound] } := by
  simp [reconcileStep, hsr]

/-- Equation for `reconcileStep` on an `Add` item whose match is already
tagged. -/
theorem step_add_mem (search : SearchOracle) (dryRun : Bool) (st : RunState)
    (b : GBook) (bi : BookInfo) (hsr : search b.title b.authors = some bi)
    (hm : bi.libby_id ∈ st.ids) :
    reconcileStep search dryRun st (TagAction.Add, b)
      = { st with existing_ct := st.existing_ct + 1,
                  outcomes := st.outcomes ++ [Outcome.AlreadyTaggedById] } := by
  simp [reconcileStep, hsr, hm]

/-- Equation for a non-dry `reconcileStep` on an `Add` item whose match is
not yet tagged. -/
theorem step_add_not_mem (search : SearchOracle) (st : RunState)
    (b : GBook) (bi : BookInfo) (hsr : search b.title b.authors = some bi)
    (hm : bi.libby_id ∉ st.ids) :
    reconcileStep search false st (TagAction.Add, b)
      = { st with newly_tagged_ct := st.newly_tagged_ct + 1,
                  outcomes := st.outcomes ++ [Outcome.Tagged],
                  tagCalls := st.tagCalls + 1,
                  remote := st.remote ++ [bi],
                  ids := bi.libby_id :: st.ids } := by
  simp [reconcileStep, hsr, hm, setInsert]

/-- In a non-dry batch of only `Add` items, the invariant "every id in the
in-memory existing-tag-id set is the id of some remotely tagged book" is
preserved by the whole batch. -/
theorem processWork_add_ids_sub_remote (search : SearchOracle) :
    ∀ (order : List (TagAction × GBook)) (st : RunState),
    (∀ w ∈ order, w.1 = TagAction.Add) →
    (∀ x ∈ st.ids, x ∈ st.remote.map (fun b => b.libby_id)) →
    ∀ x ∈ (processWork search false order st).ids,
      x ∈ (processWork search false order st).remote.map (fun b => b.libby_id)
  | [], st => by intro _ hsub x hx; exact hsub x hx
  | w :: ws, st => by
    intro hadd hsub x hx
    obtain ⟨a, b⟩ := w
    have ha : a = TagAction.Add := hadd _ (List.mem_cons_self _ _)
    subst ha
    rw [processWork_cons] at hx ⊢
    refine processWork_add_ids_sub_remote search ws _
      (fun w hw => hadd w (List.mem_cons_of_mem _ hw)) ?_ x hx
    intro y hy
    cases hsr : search b.title b.authors with
    | none =>
      rw [step_none search false st (TagAction.Add, b) hsr] at hy ⊢
      exact hsub y hy
    | some bi =>
      by_cases hm : bi.libby_id ∈ st.ids
      · rw [step_add_mem search false st b bi hsr hm] at hy ⊢
        exact hsub y hy
      · rw [step_add_not_mem search st b bi hsr hm] at hy ⊢
        replace hy : y ∈ bi.libby_id :: st.ids := hy
        rcases List.mem_cons.mp hy with h | h
        · subst h
          simp
        · have hmem := hsub y h
          show y ∈ (st.remote ++ [bi]).map (fun b => b.libby_id)
          simp only [List.map_append, List.mem_append]
          exact Or.inl hmem

/-- In a non-dry batch of only `Add` items, a normalized title that is
already among the tagged titles stays among them. -/
theorem processWork_add_titles_mono (search : SearchOracle)
    (order : List (TagAction × GBook)) (st : RunState)
    (hadd : ∀ w ∈ order, w.1 = TagAction.Add) :
    ∀ t ∈ existingTitles st.remote,
      t ∈ existingTitles (processWork search false order st).remote := by
  intro t ht
  simp only [existingTitles, List.mem_map] at ht ⊢
  obtain ⟨b, hb, rfl⟩ := ht
  exact ⟨b, processWork_add_remote_mono search order st hadd b hb, rfl⟩

/-- After a non-dry batch of only `Add` items, every processed book whose
remote search succeeds has its matched id in the final existing-tag-id
set. -/
theorem processWork_add_covers (search : SearchOracle) :
    ∀ (order : List (TagAction × GBook)) (st : RunState),
    (∀ w ∈ order, w.1 = TagAction.Add) →
    ∀ w ∈ order, ∀ bi, search w.2.title w.2.authors = some bi →
      bi.libby_id ∈ (processWork search false order st).ids
  | [], _ => by intro _ w hw; cases hw
  | w0 :: ws, st => by
    intro hadd w hw bi hsr
    obtain ⟨a, b⟩ := w0
    have ha : a = TagAction.Add := hadd _ (List.mem_cons_self _ _)
    subst ha
    rw [processWork_cons]
    have hadd' : ∀ w ∈ ws, w.1 = TagAction.Add :=
      fun w hw => hadd w (List.mem_cons_of_mem _ hw)
    rcases List.mem_cons.mp hw with rfl | hw'
    · apply processWork_add_ids_mono search ws _ hadd'
      by_cases hm : bi.libby_id ∈ st.ids
      · rw [step_add_mem search false st b bi hsr hm]
        exact hm
      · rw [step_add_not_mem search st b bi hsr hm]
        exact List.mem_cons_self _ _
    · exact processWork_add_covers search ws _ hadd' w hw' bi hsr

/-- A non-dry batch of only `Add` items, in which every item's search
result is already tagged, issues no mutation calls, leaves the id set
untouched, and only emits `AlreadyTaggedById` / `NotFound` outcomes. -/
theorem processWork_add_noop (search : SearchOracle) :
    ∀ (order : List (TagAction × GBook)) (st : RunState),
    (∀ w ∈ order, w.1 = TagAction.Add) →
    (∀ w ∈ order, ∀ bi, search w.2.title w.2.authors = some bi → bi.libby_id ∈ st.ids) →
    (processWork search false order st).tagCalls = st.tagCalls
    ∧ (processWork search false order st).untagCalls = st.untagCalls
    ∧ (processWork search false order st).ids = st.ids
    ∧ ∀ o ∈ (processWork search false order st).outcomes,
        o ∈ st.outcomes ∨ o = Outcome.AlreadyTaggedById ∨ o = Outcome.NotFound
  | [], st => fun _ _ => ⟨rfl, rfl, rfl, fun _ ho => Or.inl ho⟩
  | w0 :: ws, st => by
    intro hadd hcov
    obtain ⟨a, b⟩ := w0
    have ha : a = TagAction.Add := hadd _ (List.mem_cons_self _ _)
    subst ha
    rw [processWork_cons]
    have hadd' : ∀ w ∈ ws, w.1 = TagAction.Add :=
      fun w hw => hadd w (List.mem_cons_of_mem _ hw)
    cases hsr : search b.title b.authors with
    | none =>
      rw [step_none search false st (TagAction.Add, b) hsr]
      obtain ⟨rt, ru, ri, ro⟩ := processWork_add_noop search ws
        { st with not_found_ct := st.not_found_ct + 1,
                  outcomes := st.outcomes ++ [Outcome.NotFound] }
        hadd' (fun w hw bi hs => hcov w (List.mem_cons_of_mem _ hw) bi hs)
      refine ⟨rt, ru, ri, fun o ho => ?_⟩
      rcases ro o ho with hin | h | h
      · replace hin : o ∈ st.outcomes ++ [Outcome.NotFound] := hin
        rcases List.mem_append.mp hin with h' | h'
        · exact Or.inl h'
        · right; right; simpa using h'
      · exact Or.inr (Or.inl h)
      · exact Or.inr (Or.inr h)
    | some bi =>
      have hm : bi.libby_id ∈ st.ids := hcov _ (List.mem_cons_self _ _) bi hsr
      rw [step_add_mem search false st b bi hsr hm]
      obtain ⟨rt, ru, ri, ro⟩ := processWork_add_noop search ws
        { st with existing_ct := st.existing_ct + 1,
                  outcomes := st.outcomes ++ [Outcome.AlreadyTaggedById] }
        hadd' (fun w hw bi hs => hcov w (List.mem_cons_of_mem _ hw) bi hs)
      refine ⟨rt, ru, ri, fun o ho => ?_⟩
      rcases ro o ho with hin | h | h
      · replace hin : o ∈ st.outcomes ++ [Outcome.AlreadyTaggedById] := hin
        rcases List.mem_append.mp hin with h' | h'
        · exact Or.inl h'
        · right; left; simpa using h'
      · exact Or.inr (Or.inl h)
      · exact Or.inr (Or.inr h)

/-- Decomposition of membership in the work list when the remove shelf is
empty. -/
theorem mem_workItems_no_removes (addBooks : List GBook) (titles : List String)
    (w : TagAction × GBook) (hw : w ∈ workItems addBooks [] titles) :
    w.1 = TagAction.Add ∧ w.2 ∈ addBooks ∧ normalize_title w.2.title ∉ titles := by
  simp only [workItems, List.filter_nil, List.map_nil, List.append_nil, List.mem_map,
    List.mem_filter] at hw
  obtain ⟨b, ⟨hb, hp⟩, rfl⟩ := hw
  refine ⟨rfl, hb, ?_⟩
  simpa using hp

/-- Introduction rule for membership in the work list when the remove shelf
is empty. -/
theorem workItems_no_removes_mem (addBooks : List GBook) (titles : List String)
    (b : GBook) (hb : b ∈ addBooks) (hp : normalize_title b.title ∉ titles) :
    (TagAction.Add, b) ∈ workItems addBooks [] titles := by
  simp only [workItems, List.filter_nil, List.map_nil, List.append_nil, List.mem_map,
    List.mem_filter]
  exact ⟨b, ⟨hb, by simpa using hp⟩, rfl⟩

/-- **C1 (amended).** Idempotence of reconciliation without a remove shelf:
if `gr2libby` is run twice in succession with no remove-shelf books, with no
intervening change to remote state other than the first run's own mutations,
and with a deterministic remote search, then — for every completion order of
either run's concurrent search batch — the second run issues zero tag and
zero untag mutation calls, and every book resolves to `AlreadyTaggedByTitle`,
`AlreadyTaggedById`, or the no-op `NotFound` outcome. (The unamended claim,
which also allows remove-shelf books, is refuted by
`gr2libby_idempotence_counterexample`.) -/
theorem gr2libby_idempotent_no_removes (search : SearchOracle)
    (addBooks : List GBook) (tagged : List BookInfo)
    (order1 order2 : List (TagAction × GBook))
    (h1 : order1.Perm (workItems addBooks [] (existingTitles tagged)))
    (h2 : order2.Perm (workItems addBooks []
        (existingTitles (gr2libbyRun search false addBooks tagged order1).remote))) :
    (gr2libbyRun search false addBooks
        (gr2libbyRun search false addBooks tagged order1).remote order2).tagCalls = 0
    ∧ (gr2libbyRun search false addBooks
        (gr2libbyRun search false addBooks tagged order1).remote order2).untagCalls = 0
    ∧ ∀ o ∈ (gr2libbyRun search false addBooks
        (gr2libbyRun search false addBooks tagged order1).remote order2).outcomes,
        o = Outcome.AlreadyTaggedByTitle ∨ o = Outcome.AlreadyTaggedById
          ∨ o = Outcome.NotFound := by
  have hadd1 : ∀ w ∈ order1, w.1 = TagAction.Add :=
    fun w hw => (mem_workItems_no_removes _ _ w (h1.subset hw)).1
  have hadd2 : ∀ w ∈ order2, w.1 = TagAction.Add :=
    fun w hw => (mem_workItems_no_removes _ _ w (h2.subset hw)).1
  have hcov : ∀ w ∈ order2, ∀ bi, search w.2.title w.2.authors = some bi →
      bi.libby_id ∈ (initState addBooks
        (gr2libbyRun search false addBooks tagged order1).remote).ids := by
    intro w hw bi hsr
    obtain ⟨hwa, hb, hnt⟩ := mem_workItems_no_removes _ _ w (h2.subset hw)
    have hnt1 : normalize_title w.2.title ∉ existingTitles tagged := by
      intro hmem
      exact hnt (processWork_add_titles_mono search order1
        (initState addBooks tagged) hadd1 _ hmem)
    have hw1 : (TagAction.Add, w.2) ∈ order1 :=
      h1.mem_iff.mpr (workItems_no_removes_mem _ _ _ hb hnt1)
    have hid : bi.libby_id ∈ (gr2libbyRun search false addBooks tagged order1).ids :=
      processWork_add_covers search order1 (initState addBooks tagged) hadd1
        (TagAction.Add, w.2) hw1 bi hsr
    exact processWork_add_ids_sub_remote search order1 (initState addBooks tagged)
      hadd1 (fun x hx => hx) bi.libby_id hid
  obtain ⟨ht, hu, _, ho⟩ := processWork_add_noop search order2
    (initState addBooks (gr2libbyRun search false addBooks tagged order1).remote)
    hadd2 hcov
  refine ⟨ht, hu, fun o hoo => ?_⟩
  rcases ho o hoo with hin | h | h
  · left
    replace hin : o ∈ (addBooks.filter
        (fun b => (existingTitles
          (gr2libbyRun search false addBooks tagged order1).remote).contains
            (normalize_title b.title))).map
        (fun _ => Outcome.AlreadyTaggedByTitle) := hin
    obtain ⟨_, _, hfx⟩ := List.mem_map.mp hin
    exact hfx.symm
  · exact Or.inr (Or.inl h)
  · exact Or.inr (Or.inr h)

/-- Witness instantiation of `gr2libby_idempotent_no_removes`: a single
shelf book tagged on the first run is only title-skipped on the second. -/
theorem gr2libby_idempotent_no_removes_witness :
    (gr2libbyRun sampleSearch false [⟨"the hobbit", []⟩]
        (gr2libbyRun sampleSearch false [⟨"the hobbit", []⟩] []
          [(TagAction.Add, ⟨"the hobbit", []⟩)]).remote []).tagCalls = 0
    ∧ (gr2libbyRun sampleSearch false [⟨"the hobbit", []⟩]
        (gr2libbyRun sampleSearch false [⟨"the hobbit", []⟩] []
          [(TagAction.Add, ⟨"the hobbit", []⟩)]).remote []).untagCalls = 0 :=
  ⟨(gr2libby_idempotent_no_removes sampleSearch [⟨"the hobbit", []⟩] []
      [(TagAction.Add, ⟨"the hobbit", []⟩)] [] (by decide) (by decide)).1,
    (gr2libby_idempotent_no_removes sampleSearch [⟨"the hobbit", []⟩] []
      [(TagAction.Add, ⟨"the hobbit", []⟩)] [] (by decide) (by decide)).2.1⟩

/-- Deterministic search oracle for the idempotence counterexample. -/
def oscillateSearch : SearchOracle := fun t _ =>
  if t = "Book One" then some ⟨"id1", "Book One"⟩ else none

/-- **C1 counterexample.** With a remove shelf, reconciliation is not
idempotent: the title "Book One" appears on both the add shelf and the
remove shelf while the catalog item `id1` (matched by that title) starts
out tagged. The first run title-skips the add and untags `id1`; the second
run then re-tags it, issuing one tag-mutation call — refuting the claim
that a second run issues zero mutations. -/
theorem gr2libby_idempotence_counterexample :
    (gr2libby oscillateSearch false [⟨"Book One", []⟩] [⟨"Book One", []⟩]
        (gr2libby oscillateSearch false [⟨"Book One", []⟩] [⟨"Book One", []⟩]
          [⟨"id1", "Book One"⟩]).remote).tagCalls = 1
    ∧ (gr2libby oscillateSearch false [⟨"Book One", []⟩] [⟨"Book One", []⟩]
        [⟨"id1", "Book One"⟩]).untagCalls = 1 := by
  constructor <;> decide

/-! ## C3 / C4: fuzzy author matching and the subtitle-stripping fallback -/

/-- `str::to_lowercase`, modelled per character. -/
def lowercase (s : String) : String := String.mk (s.toList.map Char.toLower)

/-- The Levenshtein edit-distance recurrence computed by the
`edit_distance` crate used in `fuzzy_author_compare`. The recursion is
driven by an explicit fuel argument (always sufficient, see
`levenshteinDist`) so that the definition is structural and evaluates
inside the kernel. -/
def levFuel : Nat → List Char → List Char → Nat
  | _, [], ys => ys.length
  | _, xs, [] => xs.length
  | 0, xs, _ => xs.length
  | fuel + 1, x :: xs, y :: ys =>
    min (levFuel fuel xs (y :: ys) + 1)
      (min (levFuel fuel (x :: xs) ys + 1)
        (levFuel fuel xs ys + (if x = y then 0 else 1)))

/-- Levenshtein distance on char lists: every recursive step of the
recurrence shortens the combined length by at least one, so
`a.length + b.length` fuel always suffices. -/
def levenshteinDist (a b : List Char) : Nat := levFuel (a.length + b.length) a b

/-- `edit_distance::edit_distance` on strings. -/
def edit_distance (a b : String) : Nat := levenshteinDist a.toList b.toList

/-- `usize::MAX`, the default of the empty minimum in
`fuzzy_author_compare`. -/
def usizeMax : Nat := 2 ^ 64 - 1

/-- `Iterator::min` over the mapped distances. -/
def iterMin : List Nat → Option Nat
  | [] => none
  | x :: xs =>
    match iterMin xs with
    | none => some x
    | some m => some (min x m)

/-- `fuzzy_author_compare` from `src/libby.rs` lines 278-293: lowercase the
author set and the candidate creator name, take the minimum edit distance
(defaulting to `usize::MAX` on an empty set), and accept iff it is
strictly below 3. -/
def fuzzy_author_compare (haystack : List String) (needle : String) : Bool :=
  let lower_haystack := haystack.map lowercase
  let lower_needle := lowercase needle
  decide
    ((iterMin (lower_haystack.map (fun x => edit_distance x lower_needle))).getD usizeMax < 3)

/-- `LibbySearchResultItem` from `src/libby.rs` lines 188-204, with the
fields the modelled code reads (the nested `book_type` struct is never
consulted by the modelled logic and is omitted). -/
structure LibbySearchResultItem where
  is_available : Bool
  is_owned : Option Bool
  owned_copies : Option Int
  estimated_wait_days : Option Int
  holds_count : Option Int
  available_copies : Option Int
  id : String
  first_creator_name : String
  sort_title : String
  subjects : List String
deriving DecidableEq, Repr

/-- The candidate-acceptance predicate of `search_items`
(`src/libby.rs` lines 514-516): accept unconditionally without an author
set, otherwise fuzzy-compare the creator name against the set. -/
def acceptItem (authors : Option (List String)) (b : LibbySearchResultItem) : Bool :=
  authors.isNone || fuzzy_author_compare (authors.getD []) b.first_creator_name

/-- `str::split_once` on char lists: split at the first occurrence. -/
def splitOnceList : List Char → Char → Option (List Char × List Char)
  | [], _ => none
  | x :: xs, c =>
    if x = c then some ([], xs)
    else (splitOnceList xs c).map (fun p => (x :: p.1, p.2))

/-- `str::split_once` on strings. -/
def splitOnce (s : String) (c : Char) : Option (String × String) :=
  (splitOnceList s.toList c).map (fun p => (String.mk p.1, String.mk p.2))

/-- `str::contains(char)`. -/
def strContainsChar (s : String) (c : Char) : Bool := s.toList.contains c

/-- The substring of `s` strictly before the first occurrence of `c`. -/
def beforeFirst (s : String) (c : Char) : String :=
  String.mk (s.toList.takeWhile (fun x => x != c))

/-- The response list and the list of issued search queries produced by
`search_items` (`src/libby.rs` lines 491-517): query the full title; if
that yields no items and the title contains a colon, retry once with the
part of the title before the colon. -/
def returnedResponse (remote : String → List LibbySearchResultItem)
    (title : String) : List LibbySearchResultItem × List String :=
  let response := remote title
  if response.isEmpty && strContainsChar title ':' then
    match splitOnce title ':' with
    | some (t2, _) => (remote t2, [title, t2])
    | none => (response, [title])
  else (response, [title])

/-- The result of one full `search_items` call: the first accepted
candidate of the (possibly retried) response, plus the queries issued. -/
structure SearchTrace where
  result : Option LibbySearchResultItem
  queries : List String
deriving DecidableEq, Repr

/-- `search_items` from `src/libby.rs` lines 491-517, instrumented with the
list of issued queries. -/
def search_items (remote : String → List LibbySearchResultItem)
    (title : String) (authors : Option (List String)) : SearchTrace :=
  { result := (returnedResponse remote title).1.find? (acceptItem authors)
    queries := (returnedResponse remote title).2 }

/-- The minimum of a list of naturals, defaulted to `M`, is below a bound
`k ≤ M` iff some element is. -/
theorem iterMin_getD_lt (M k : Nat) (hk : k ≤ M) :
    ∀ l : List Nat, ((iterMin l).getD M < k ↔ ∃ x ∈ l, x < k)
  | [] => by
    simp only [iterMin, Option.getD_none, List.not_mem_nil, false_and, exists_false,
      iff_false]
    omega
  | x :: xs => by
    have ih := iterMin_getD_lt M k hk xs
    cases h : iterMin xs with
    | none =>
      rw [h, Option.getD_none] at ih
      have hno : ¬ ∃ y ∈ xs, y < k := fun hx => absurd (ih.mpr hx) (by omega)
      simp only [iterMin, h, Option.getD_some]
      constructor
      · intro hx
        exact ⟨x, List.mem_cons_self _ _, hx⟩
      · rintro ⟨y, hy, hyk⟩
        rcases List.mem_cons.mp hy with rfl | hy'
        · exact hyk
        · exact absurd ⟨y, hy', hyk⟩ hno
    | some m =>
      rw [h, Option.getD_some] at ih
      simp only [iterMin, h, Option.getD_some]
      constructor
      · intro hx
        rcases min_lt_iff.mp hx with hx' | hm
        · exact ⟨x, List.mem_cons_self _ _, hx'⟩
        · obtain ⟨y, hy, hyk⟩ := ih.mp hm
          exact ⟨y, List.mem_cons_of_mem _ hy, hyk⟩
      · rintro ⟨y, hy, hyk⟩
        rcases List.mem_cons.mp hy with rfl | hy'
        · exact min_lt_iff.mpr (Or.inl hyk)
        · exact min_lt_iff.mpr (Or.inr (ih.mpr ⟨y, hy', hyk⟩))

/-- **C3.** Fuzzy author matching policy (`src/libby.rs` lines 278-293 and
514-516): a candidate creator name is accepted iff the minimum edit
distance between its lowercased form and any lowercased name of the
supplied author set is strictly below 3 (so it is rejected when every
distance is ≥ 3, and in particular when the set is empty); the matcher
returns the first accepted candidate of the response in its returned
order; and with no author set supplied it returns the first candidate
unconditionally. -/
theorem fuzzy_matcher_policy (hay : List String) (needle : String)
    (remote : String → List LibbySearchResultItem) (title : String) :
    (fuzzy_author_compare hay needle = true
      ↔ ∃ a ∈ hay, edit_distance (lowercase a) (lowercase needle) < 3)
    ∧ (search_items remote title (some hay)).result
        = (returnedResponse remote title).1.find?
            (fun b => fuzzy_author_compare hay b.first_creator_name)
    ∧ (search_items remote title none).result
        = (returnedResponse remote title).1.head? := by
  have hk : (3 : Nat) ≤ usizeMax := by norm_num [usizeMax]
  refine ⟨?_, ?_, ?_⟩
  · have base := iterMin_getD_lt usizeMax 3 hk
      ((hay.map lowercase).map (fun x => edit_distance x (lowercase needle)))
    constructor
    · intro h
      have h' : (iterMin ((hay.map lowercase).map
          (fun x => edit_distance x (lowercase needle)))).getD usizeMax < 3 := by
        simpa [fuzzy_author_compare] using h
      obtain ⟨x, hx, hxk⟩ := base.mp h'
      rw [List.map_map] at hx
      obtain ⟨a, ha, rfl⟩ := List.mem_map.mp hx
      exact ⟨a, ha, hxk⟩
    · rintro ⟨a, ha, hak⟩
      have hx : edit_distance (lowercase a) (lowercase needle)
          ∈ (hay.map lowercase).map (fun x => edit_distance x (lowercase needle)) := by
        rw [List.map_map]
        exact List.mem_map.mpr ⟨a, ha, rfl⟩
      have := base.mpr ⟨_, hx, hak⟩
      simpa [fuzzy_author_compare] using this
  · show (returnedResponse remote title).1.find? (acceptItem (some hay)) = _
    have hacc : acceptItem (some hay)
        = fun b => fuzzy_author_compare hay b.first_creator_name := by
      funext b
      simp [acceptItem]
    rw [hacc]
  · show (returnedResponse remote title).1.find? (acceptItem none) = _
    have hacc : acceptItem none = fun _ => true := by
      funext b
      simp [acceptItem]
    rw [hacc]
    cases (returnedResponse remote title).1 <;> rfl

/-- `split_once` splits at the first occurrence: the left component is the
longest prefix free of `c`. -/
theorem splitOnceList_of_contains (c : Char) :
    ∀ l : List Char, l.contains c = true →
      splitOnceList l c
        = some (l.takeWhile (fun x => x != c), (l.dropWhile (fun x => x != c)).tail)
  | [] => by intro h; simp at h
  | x :: xs => by
    intro h
    by_cases hx : x = c
    · subst hx
      show (if x = x then some (([] : List Char), xs)
        else (splitOnceList xs x).map (fun p => (x :: p.1, p.2))) = _
      rw [if_pos rfl]
      have ht : List.takeWhile (fun y => y != x) (x :: xs) = [] := by
        simp [List.takeWhile_cons]
      have hd : List.dropWhile (fun y => y != x) (x :: xs) = x :: xs := by
        simp [List.dropWhile_cons]
      rw [ht, hd]
      rfl
    · have h' : xs.contains c = true := by
        rw [List.contains_cons] at h
        cases hor : (c == x) with
        | true => exact absurd (beq_iff_eq.mp hor).symm hx
        | false =>
          rw [hor] at h
          simpa using h
      have ih := splitOnceList_of_contains c xs h'
      show (if x = c then some (([] : List Char), xs)
        else (splitOnceList xs c).map (fun p => (x :: p.1, p.2))) = _
      rw [if_neg hx, ih, Option.map_some']
      rw [List.takeWhile_cons, List.dropWhile_cons]
      have hbx : (x != c) = true := by simpa using hx
      rw [hbx]
      simp

/-- String-level version of `splitOnceList_of_contains`. -/
theorem splitOnce_of_contains (s : String) (c : Char) (h : strContainsChar s c = true) :
    splitOnce s c
      = some (beforeFirst s c, String.mk ((s.toList.dropWhile (fun x => x != c)).tail)) := by
  unfold splitOnce beforeFirst
  rw [splitOnceList_of_contains c s.toList h]
  rfl

/-- **C4.** Subtitle-stripping fallback (`src/libby.rs` lines 502-512): when
the title contains a colon and the full-title query returns zero
candidates, `search_items` issues exactly one retry query with the
substring before the first colon (and matches against that retry's
response); when the first query returns at least one candidate, or the
title has no colon, only the single initial query is issued. -/
theorem subtitle_stripping_fallback (remote : String → List LibbySearchResultItem)
    (title : String) (authors : Option (List String)) :
    (strContainsChar title ':' = true → remote title = [] →
        (search_items remote title authors).queries = [title, beforeFirst title ':']
        ∧ (search_items remote title authors).result
            = (remote (beforeFirst title ':')).find? (acceptItem authors))
    ∧ (remote title ≠ [] ∨ strContainsChar title ':' = false →
        (search_items remote title authors).queries = [title]
        ∧ (search_items remote title authors).result
            = (remote title).find? (acceptItem authors)) := by
  constructor
  · intro hc he
    have hsp := splitOnce_of_contains title ':' hc
    have hrr : returnedResponse remote title
        = (remote (beforeFirst title ':'), [title, beforeFirst title ':']) := by
      simp [returnedResponse, he, hc, hsp]
    exact ⟨by rw [show (search_items remote title authors).queries
              = (returnedResponse remote title).2 from rfl, hrr],
           by rw [show (search_items remote title authors).result
              = (returnedResponse remote title).1.find? (acceptItem authors) from rfl, hrr]⟩
  · intro h
    have hrr : returnedResponse remote title = (remote title, [title]) := by
      rcases h with h | h
      · obtain ⟨y, ys, hys⟩ := List.exists_cons_of_ne_nil h
        simp [returnedResponse, hys]
      · simp [returnedResponse, h]
    exact ⟨by rw [show (search_items remote title authors).queries
              = (returnedResponse remote title).2 from rfl, hrr],
           by rw [show (search_items remote title authors).result
              = (returnedResponse remote title).1.find? (acceptItem authors) from rfl, hrr]⟩

/-- A remote search oracle returning no candidates, used in witnesses. -/
def emptyRemote : String → List LibbySearchResultItem := fun _ => []

/-- Witness for `subtitle_stripping_fallback`: with an empty remote
response, the title "a:b" triggers exactly the retry query "a", while the
colon-free title "ab" issues a single query. -/
theorem subtitle_stripping_fallback_witness :
    (search_items emptyRemote "a:b" none).queries = ["a:b", beforeFirst "a:b" ':']
    ∧ (search_items emptyRemote "ab" none).queries = ["ab"] :=
  ⟨((subtitle_stripping_fallback emptyRemote "a:b" none).1 (by decide) (by decide)).1,
    ((subtitle_stripping_fallback emptyRemote "ab" none).2 (Or.inr (by decide))).1⟩

/-! ## C5: partial-failure isolation in a search batch -/

/-- One iteration of the result-draining loop of `browse`
(`src/browse.rs` lines 134-142): a successful search is appended to the
`found` list, a failed one only bumps the `not_found` counter. -/
def collectStep (acc : List (GBook × LibbySearchResultItem) × Nat)
    (br : GBook × Except Unit LibbySearchResultItem) :
    List (GBook × LibbySearchResultItem) × Nat :=
  match br.2 with
  | Except.ok item => (acc.1 ++ [(br.1, item)], acc.2)
  | Except.error _ => (acc.1, acc.2 + 1)

/-- The whole result-draining loop of `browse` (`src/browse.rs` lines
132-148), over the completed `(book, result-or-error)` pairs of one
concurrent search batch. -/
def collectSearchResults
    (results : List (GBook × Except Unit LibbySearchResultItem)) :
    List (GBook × LibbySearchResultItem) × Nat :=
  results.foldl collectStep ([], 0)

/-- Modelled from the spec: the successful outcomes of a batch, each
carried through unchanged and in order. -/
def successPairs (results : List (GBook × Except Unit LibbySearchResultItem)) :
    List (GBook × LibbySearchResultItem) :=
  results.filterMap (fun br =>
    match br.2 with
    | Except.ok item => some (br.1, item)
    | Except.error _ => none)

/-- Modelled from the spec: the number of failed operations of a batch. -/
def failureCount (results : List (GBook × Except Unit LibbySearchResultItem)) : Nat :=
  (results.filter (fun br =>
    match br.2 with
    | Except.ok _ => false
    | Except.error _ => true)).length

/-- Accumulator-generalised characterisation of the collect loop. -/
theorem collect_foldl :
    ∀ (results : List (GBook × Except Unit LibbySearchResultItem))
      (acc : List (GBook × LibbySearchResultItem) × Nat),
    (results.foldl collectStep acc).1 = acc.1 ++ successPairs results
    ∧ (results.foldl collectStep acc).2 = acc.2 + failureCount results
  | [], acc => by simp [successPairs, failureCount]
  | br :: rs, acc => by
    obtain ⟨b, r⟩ := br
    cases r with
    | ok item =>
      have ih := collect_foldl rs (acc.1 ++ [(b, item)], acc.2)
      refine ⟨?_, ?_⟩
      · rw [List.foldl_cons]
        show (rs.foldl collectStep (acc.1 ++ [(b, item)], acc.2)).1 = _
        rw [ih.1]
        simp [successPairs]
      · rw [List.foldl_cons]
        show (rs.foldl collectStep (acc.1 ++ [(b, item)], acc.2)).2 = _
        rw [ih.2]
        simp [failureCount]
    | error e =>
      have ih := collect_foldl rs (acc.1, acc.2 + 1)
      refine ⟨?_, ?_⟩
      · rw [List.foldl_cons]
        show (rs.foldl collectStep (acc.1, acc.2 + 1)).1 = _
        rw [ih.1]
        simp [successPairs]
      · rw [List.foldl_cons]
        show (rs.foldl collectStep (acc.1, acc.2 + 1)).2 = _
        rw [ih.2]
        simp [failureCount]
        omega

/-- Successes and failures account for the whole batch. -/
theorem successPairs_length_add_failureCount :
    ∀ results : List (GBook × Except Unit LibbySearchResultItem),
    (successPairs results).length + failureCount results = results.length
  | [] => by simp [successPairs, failureCount]
  | br :: rs => by
    have ih := successPairs_length_add_failureCount rs
    obtain ⟨b, r⟩ := br
    cases r with
    | ok item =>
      simp [successPairs, failureCount] at ih ⊢
      omega
    | error e =>
      simp [successPairs, failureCount] at ih ⊢
      omega

/-- A concrete successful search result used in batch examples. -/
def sampleItem : LibbySearchResultItem :=
  ⟨true, none, none, none, none, none, "id9", "An Author", "A Title", []⟩

/-- A concrete batch of 10 search results of which 3 fail. -/
def batch10 : List (GBook × Except Unit LibbySearchResultItem) :=
  [(⟨"b1", []⟩, Except.ok sampleItem), (⟨"b2", []⟩, Except.error ()),
   (⟨"b3", []⟩, Except.ok sampleItem), (⟨"b4", []⟩, Except.ok sampleItem),
   (⟨"b5", []⟩, Except.error ()), (⟨"b6", []⟩, Except.ok sampleItem),
   (⟨"b7", []⟩, Except.ok sampleItem), (⟨"b8", []⟩, Except.error ()),
   (⟨"b9", []⟩, Except.ok sampleItem), (⟨"b10", []⟩, Except.ok sampleItem)]

/-- The `gr2libby` processing loop likewise never aborts on a failed
search: every work item is processed and each failure only bumps the
`not_found_ct` summary counter. -/
theorem processWork_not_found_count (search : SearchOracle) (dryRun : Bool) :
    ∀ (order : List (TagAction × GBook)) (st : RunState),
    (processWork search dryRun order st).not_found_ct
      = st.not_found_ct
        + (order.filter (fun w => (search w.2.title w.2.authors).isNone)).length
  | [], st => by simp [processWork]
  | w :: ws, st => by
    obtain ⟨a, b⟩ := w
    rw [processWork_cons]
    cases hsr : search b.title b.authors with
    | none =>
      rw [step_none search dryRun st (a, b) hsr,
        processWork_not_found_count search dryRun ws _]
      simp [hsr]
      omega
    | some bi =>
      have hnf : (reconcileStep search dryRun st (a, b)).not_found_ct
          = st.not_found_ct := by
        cases a <;> by_cases hm : bi.libby_id ∈ st.ids <;>
          simp [reconcileStep, hsr, hm]
      rw [processWork_not_found_count search dryRun ws _, hnf]
      simp [hsr]

/-- **C5.** Partial-failure isolation (`src/browse.rs` lines 132-148 and
`src/main.rs` lines 265-326): the result-draining loops are total — every
item of the batch is processed, a failed search neither aborts the batch
nor disturbs any other result. In `browse`, the collected `found` list is
exactly the successful `(book, item)` pairs, unchanged and in order; the
reported failure count is exactly the number of failed operations;
successes plus failures account for the whole batch; a batch of 10
searches with 3 failures yields 7 successful outcomes and a failure count
of 3; and in the `gr2libby` loop every failed search only bumps the
reported `not_found_ct`. -/
theorem partial_failure_isolation
    (results : List (GBook × Except Unit LibbySearchResultItem)) :
    (collectSearchResults results).1 = successPairs results
    ∧ (collectSearchResults results).2 = failureCount results
    ∧ (collectSearchResults results).1.length + (collectSearchResults results).2
        = results.length
    ∧ (collectSearchResults batch10).1.length = 7
    ∧ (collectSearchResults batch10).2 = 3
    ∧ ∀ (search : SearchOracle) (dryRun : Bool) (order : List (TagAction × GBook))
        (st : RunState),
        (processWork search dryRun order st).not_found_ct
          = st.not_found_ct
            + (order.filter (fun w => (search w.2.title w.2.authors).isNone)).length := by
  obtain ⟨h1, h2⟩ := collect_foldl results ([], 0)
  have h1' : (collectSearchResults results).1 = successPairs results := by
    simpa [collectSearchResults] using h1
  have h2' : (collectSearchResults results).2 = failureCount results := by
    simpa [collectSearchResults] using h2
  refine ⟨h1', h2', ?_, by decide, by decide,
    fun search dryRun order st => processWork_not_found_count search dryRun order st⟩
  rw [h1', h2']
  exact successPairs_length_add_failureCount results

/-! ## C6: format-cache write discipline -/

/-- `HashMap::contains_key` on the modelled format cache. -/
def containsKey (entries : List (String × List String)) (id : String) : Bool :=
  entries.any (fun kv => kv.1 == id)

/-- `HashMap::insert`: wholesale replacement of the entry for `id`. -/
def cacheInsert (entries : List (String × List String)) (id : String)
    (v : List String) : List (String × List String) :=
  entries.filter (fun kv => kv.1 != id) ++ [(id, v)]

/-- The cache misses of a run (`src/browse.rs` lines 152-156): the found
catalog ids that have no cache entry. -/
def uncachedIds (cache0 : List (String × List String)) (foundIds : List String) :
    List String :=
  foundIds.filter (fun id => !(containsKey cache0 id))

/-- The observable outcome of the cache phase: the final entries, the
number of `save()` calls (disk writes), and the number of entries
inserted. -/
structure CachePhaseResult where
  entries : List (String × List String)
  saveCount : Nat
  insertedCount : Nat
deriving DecidableEq, Repr

/-- The format-cache phase of `browse` (`src/browse.rs` lines 150-182):
compute the uncached ids; if there are none, do nothing; otherwise fetch
each uncached id, insert only the successful results, and write the cache
to disk exactly once. -/
def format_cache_phase (cache0 : List (String × List String))
    (foundIds : List String) (fetch : String → Except Unit (List String)) :
    CachePhaseResult :=
  let uncached := uncachedIds cache0 foundIds
  if uncached.isEmpty then
    { entries := cache0, saveCount := 0, insertedCount := 0 }
  else
    let after := uncached.foldl
      (fun (acc : List (String × List String) × Nat) id =>
        match fetch id with
        | Except.ok f => (cacheInsert acc.1 id f, acc.2 + 1)
        | Except.error _ => acc)
      (cache0, 0)
    { entries := after.1, saveCount := 1, insertedCount := after.2 }

/-- **C6 (amended).** Format-cache write discipline
(`src/browse.rs` lines 150-182): in every run the cache file is written at
most once, and it is written exactly when at least one cache miss exists
(an uncached found id) — even if every fetch for those misses fails and no
entry is added. A run with no cache miss performs no write and leaves the
entries untouched. (The unamended claim — written only if an entry was
added — is refuted by `format_cache_write_counterexample`.) -/
theorem format_cache_write_discipline (cache0 : List (String × List String))
    (foundIds : List String) (fetch : String → Except Unit (List String)) :
    (format_cache_phase cache0 foundIds fetch).saveCount ≤ 1
    ∧ ((format_cache_phase cache0 foundIds fetch).saveCount = 0
        ↔ uncachedIds cache0 foundIds = [])
    ∧ (uncachedIds cache0 foundIds = [] →
        (format_cache_phase cache0 foundIds fetch).entries = cache0) := by
  by_cases h : uncachedIds cache0 foundIds = []
  · have hb : (uncachedIds cache0 foundIds).isEmpty = true := by simp [h]
    refine ⟨?_, ?_, ?_⟩ <;> simp [format_cache_phase, hb, h]
  · have hb : (uncachedIds cache0 foundIds).isEmpty = false := by simp [h]
    refine ⟨?_, ?_, ?_⟩ <;> simp [format_cache_phase, hb, h]

/-- The always-failing fetch oracle. -/
def failingFetch : String → Except Unit (List String) := fun _ => Except.error ()

/-- Witness for `format_cache_write_discipline` at a concrete run with no
found ids: no cache miss, hence no write and untouched entries. -/
theorem format_cache_write_discipline_witness :
    (format_cache_phase [("a", ["f"])] [] failingFetch).saveCount = 0
    ∧ (format_cache_phase [("a", ["f"])] [] failingFetch).entries = [("a", ["f"])] :=
  ⟨(format_cache_write_discipline [("a", ["f"])] [] failingFetch).2.1.mpr (by decide),
   (format_cache_write_discipline [("a", ["f"])] [] failingFetch).2.2 (by decide)⟩

/-- **C6 counterexample.** A run whose only uncached id fails to fetch adds
zero entries to the cache yet still writes the cache file once — refuting
"written only if at least one entry was added". -/
theorem format_cache_write_counterexample :
    (format_cache_phase [] ["x1"] failingFetch).insertedCount = 0
    ∧ (format_cache_phase [] ["x1"] failingFetch).saveCount = 1
    ∧ (format_cache_phase [] ["x1"] failingFetch).entries = [] := by
  refine ⟨?_, ?_, ?_⟩ <;> decide

/-! ## C10: format-fetch defaulting on missing or non-array "formats" -/

/-- A minimal model of `serde_json::Value` covering the shapes
`get_book_formats` inspects: strings, arrays, objects, and a collapsed
`null` for every other scalar shape (numbers, booleans, null). -/
inductive Json where
  | str : String → Json
  | arr : List Json → Json
  | obj : List (String × Json) → Json
  | null : Json
deriving Repr

/-- `serde_json::Value::get(key)`. -/
def jsonGet : Json → String → Option Json
  | Json.obj fields, key => (fields.find? (fun kv => kv.1 == key)).map (fun kv => kv.2)
  | _, _ => none

/-- `serde_json::Value::as_array()`. -/
def jsonAsArray : Json → Option (List Json)
  | Json.arr a => some a
  | _ => none

/-- `serde_json::Value::as_str()`. -/
def jsonAsStr : Json → Option String
  | Json.str s => some s
  | _ => none

/-- `get_book_formats` from `src/libby.rs` lines 545-561, applied to the
parsed response body: read the "formats" array, collect the string "id" of
each element, and default to the empty list when the field is absent or
not an array (`unwrap_or_default`). -/
def get_book_formats (response : Json) : List String :=
  (((jsonGet response "formats").bind jsonAsArray).map
    (fun a => a.filterMap (fun f => (jsonGet f "id").bind jsonAsStr))).getD []

/-- **C10.** Format-fetch defaulting (`src/libby.rs` lines 545-561 and
`src/browse.rs` lines 171-181): when the response body lacks a "formats"
array — the field is absent or its value is not an array —
`get_book_formats` succeeds with the empty format list instead of
erroring; caching that result stores the id with an empty list, so the id
has a cache entry and is never among the uncached (re-fetched) ids of any
future run. -/
theorem get_book_formats_default (response : Json)
    (h : (jsonGet response "formats").bind jsonAsArray = none)
    (cache : List (String × List String)) (id : String) :
    get_book_formats response = []
    ∧ containsKey (cacheInsert cache id (get_book_formats response)) id = true
    ∧ ∀ foundIds : List String,
        id ∉ uncachedIds (cacheInsert cache id (get_book_formats response)) foundIds := by
  have h1 : get_book_formats response = [] := by
    simp [get_book_formats, h]
  have h2 : containsKey (cacheInsert cache id (get_book_formats response)) id = true := by
    simp [containsKey, cacheInsert]
  refine ⟨h1, h2, ?_⟩
  intro foundIds hmem
  have hp := (List.mem_filter.mp hmem).2
  rw [h2] at hp
  simp at hp

/-- A response whose "formats" value is an object rather than an array. -/
def noFormatsResponse : Json := Json.obj [("formats", Json.obj [])]

/-- Witness for `get_book_formats_default` at a concrete response with a
non-array "formats" value: empty formats, a cache entry for the id, and no
re-fetch of that id. -/
theorem get_book_formats_default_witness :
    get_book_formats noFormatsResponse = []
    ∧ containsKey (cacheInsert [] "b1" (get_book_formats noFormatsResponse)) "b1" = true
    ∧ "b1" ∉ uncachedIds (cacheInsert [] "b1" (get_book_formats noFormatsResponse)) ["b1"] :=
  ⟨(get_book_formats_default noFormatsResponse rfl [] "b1").1,
   (get_book_formats_default noFormatsResponse rfl [] "b1").2.1,
   (get_book_formats_default noFormatsResponse rfl [] "b1").2.2 ["b1"]⟩

/-! ## C7: title-normalization consistency -/

/-- The tagged-title pre-check of `gr2libby` (`src/main.rs` lines 226 and
243): both sides normalized — the shelf title via `normalize_title`, the
tagged titles via `existing_book_titles`. -/
def titleAlreadyTagged (existing : List BookInfo) (t : String) : Bool :=
  (existingTitles existing).contains (normalize_title t)

/-- The intersect-with-second-export filter of `gr2libby`
(`src/main.rs` lines 196-214): keeps only shelf books whose **raw** title
appears among the second export's titles ("Just filter by title"). -/
def intersectFilter (intersectTitles : List String) (books : List GBook) :
    List GBook :=
  books.filter (fun bi => intersectTitles.contains bi.title)

/-- **C7 (amended).** Title-normalization consistency holds for the
tagged-title pre-check comparisons: both the add-skip filter and the
remove-keep filter of the work stream compare `normalize_title` of the
shelf title against the normalized tagged titles, so two titles equal
after normalization are treated as the same book there, and a tagged book
whose title matches only after normalization still fires the pre-check.
(It does **not** hold for the intersect-with-second-export comparison,
which compares raw titles — see
`title_normalization_counterexample`.) -/
theorem title_normalization_precheck (existing : List BookInfo) (t1 t2 : String)
    (h : normalize_title t1 = normalize_title t2) :
    (∀ addBooks removeBooks : List GBook,
      workItems addBooks removeBooks (existingTitles existing)
        = (addBooks.filter (fun b => !titleAlreadyTagged existing b.title)).map
            (fun b => (TagAction.Add, b))
          ++ (removeBooks.filter (fun b => titleAlreadyTagged existing b.title)).map
            (fun b => (TagAction.Remove, b)))
    ∧ titleAlreadyTagged existing t1 = titleAlreadyTagged existing t2
    ∧ (∀ b ∈ existing, normalize_title b.title = normalize_title t1 →
        titleAlreadyTagged existing t1 = true) := by
  refine ⟨fun _ _ => rfl, ?_, ?_⟩
  · unfold titleAlreadyTagged
    rw [h]
  · intro b hb hbt
    unfold titleAlreadyTagged
    have hmem : normalize_title t1 ∈ existingTitles existing := by
      rw [← hbt]
      exact List.mem_map.mpr ⟨b, hb, rfl⟩
    exact List.elem_iff.mpr hmem

/-- Witness for `title_normalization_precheck`: "Foo" and "foo!" normalize
identically, and one tagged book titled "FOO" makes the pre-check fire for
"Foo". -/
theorem title_normalization_precheck_witness :
    titleAlreadyTagged [⟨"i1", "FOO"⟩] "Foo" = titleAlreadyTagged [⟨"i1", "FOO"⟩] "foo!"
    ∧ titleAlreadyTagged [⟨"i1", "FOO"⟩] "Foo" = true :=
  ⟨(title_normalization_precheck [⟨"i1", "FOO"⟩] "Foo" "foo!" (by decide)).2.1,
   (title_normalization_precheck [⟨"i1", "FOO"⟩] "Foo" "foo!" (by decide)).2.2
     ⟨"i1", "FOO"⟩ (by decide) (by decide)⟩

/-- **C7 counterexample.** The intersect-with-second-export comparison does
not normalize: "Foo" and "foo!" are equal after normalization, yet a shelf
book titled "foo!" is dropped by `intersectFilter ["Foo"]` — the two
titles are not treated as the same book in that comparison. -/
theorem title_normalization_counterexample :
    normalize_title "Foo" = normalize_title "foo!"
    ∧ intersectFilter ["Foo"] [⟨"foo!", []⟩] = [] := by
  constructor <;> decide

/-! ## C8: the browse aggregator's sort order -/

/-- `i64::MAX`, the sort key used for an absent page count. -/
def i64Max : Int := 9223372036854775807

/-- `BrowseResult` from `src/browse.rs` lines 18-37. `f64` ratings are
modelled as `Float`; no modelled logic inspects them. -/
structure BrowseResult where
  title : String
  author : String
  pages : Option Int
  goodreads_shelves : List String
  libby_id : String
  goodreads_id : Int
  is_available : Bool
  estimated_wait_days : Option Int
  holds_count : Option Int
  owned_copies : Option Int
  available_copies : Option Int
  has_kindle : Option Bool
  subjects : List String
  average_rating : Option Float
  year_published : Option Int
  date_added : String
  private_notes : Option String
deriving Repr

/-- `i64::cmp`: the total-order comparison on machine integers. -/
def cmpInt (a b : Int) : Ordering :=
  if a < b then Ordering.lt else if a = b then Ordering.eq else Ordering.gt

/-- `bool::cmp` (`false < true`). -/
def cmpBool (a b : Bool) : Ordering :=
  if a = b then Ordering.eq else if b then Ordering.lt else Ordering.gt

/-- The sort comparator of `browse` (`src/browse.rs` lines 212-219):
available-first (descending on `is_available`), then ascending page count
with an absent count read as `i64::MAX`. -/
def browseCmp (a b : BrowseResult) : Ordering :=
  (cmpBool b.is_available a.is_available).then
    (cmpInt (a.pages.getD i64Max) (b.pages.getD i64Max))

/-- The non-strict order induced by `browseCmp`, as consumed by a stable
sort: `a` may stay before `b` iff the comparator does not say `Greater`. -/
def browseLe (a b : BrowseResult) : Bool := browseCmp a b != Ordering.gt

/-- `Vec::sort_by` with `browseCmp`: a stable merge sort. A stable sort is
determined up to extensional equality by its comparator, so core
`List.mergeSort` is a faithful model of the Rust slice sort. -/
def sortResults (results : List BrowseResult) : List BrowseResult :=
  results.mergeSort browseLe

/-- `cmpInt` refuses `Greater` exactly on `≤`. -/
theorem cmpInt_ne_gt (x y : Int) : ((cmpInt x y != Ordering.gt) = true) ↔ x ≤ y := by
  unfold cmpInt
  split_ifs with h1 h2
  · exact iff_of_true rfl (by omega)
  · exact iff_of_true rfl (by omega)
  · exact iff_of_false (by decide) (by omega)

/-- Spec-level reading of the comparator: `a` may precede `b` iff
availability does not decrease, and within equal availability the
(defaulted) page count does not decrease. -/
theorem browseLe_iff (a b : BrowseResult) :
    browseLe a b = true
      ↔ (b.is_available = true → a.is_available = true)
        ∧ (a.is_available = b.is_available →
            a.pages.getD i64Max ≤ b.pages.getD i64Max) := by
  cases ha : a.is_available <;> cases hb : b.is_available <;>
    simp [browseLe, browseCmp, cmpBool, Ordering.then, ha, hb, cmpInt_ne_gt] <;>
    decide

/-- `browseLe` is total. -/
theorem browseLe_total (a b : BrowseResult) : (browseLe a b || browseLe b a) = true := by
  rw [Bool.or_eq_true]
  cases ha : a.is_available <;> cases hb : b.is_available
  · rcases le_total (a.pages.getD i64Max) (b.pages.getD i64Max) with h | h
    · exact Or.inl ((browseLe_iff a b).mpr ⟨by simp [ha, hb], fun _ => h⟩)
    · exact Or.inr ((browseLe_iff b a).mpr ⟨by simp [ha, hb], fun _ => h⟩)
  · exact Or.inr ((browseLe_iff b a).mpr ⟨by simp [ha], by simp [ha, hb]⟩)
  · exact Or.inl ((browseLe_iff a b).mpr ⟨by simp [hb], by simp [ha, hb]⟩)
  · rcases le_total (a.pages.getD i64Max) (b.pages.getD i64Max) with h | h
    · exact Or.inl ((browseLe_iff a b).mpr ⟨by simp [ha, hb], fun _ => h⟩)
    · exact Or.inr ((browseLe_iff b a).mpr ⟨by simp [ha, hb], fun _ => h⟩)

/-- `browseLe` is transitive. -/
theorem browseLe_trans (a b c : BrowseResult) (h1 : browseLe a b = true)
    (h2 : browseLe b c = true) : browseLe a c = true := by
  rw [browseLe_iff] at h1 h2 ⊢
  obtain ⟨h1a, h1p⟩ := h1
  obtain ⟨h2a, h2p⟩ := h2
  refine ⟨fun hc => h1a (h2a hc), fun hac => ?_⟩
  by_cases hb : b.is_available = a.is_available
  · have p1 := h1p hb.symm
    have p2 := h2p (hb.trans hac)
    exact le_trans p1 p2
  · cases hav : a.is_available with
    | false =>
      have hbv : b.is_available = true := by
        cases hbb : b.is_available
        · exact absurd (hbb.trans hav.symm) hb
        · rfl
      have := h1a hbv
      rw [hav] at this
      exact absurd this (by simp)
    | true =>
      have hcv : c.is_available = true := by
        rw [← hac]
        exact hav
      exact absurd ((h2a hcv).trans hav.symm) hb

/-- The comparator key of a `BrowseResult`: availability and defaulted
page count. -/
def browseKey (a : BrowseResult) : Bool × Int := (a.is_available, a.pages.getD i64Max)

/-- Two results with equal keys compare as non-greater. -/
theorem browseLe_of_key_eq (a b : BrowseResult) (h : browseKey a = browseKey b) :
    browseLe a b = true := by
  have h1 : a.is_available = b.is_available := congrArg Prod.fst h
  have h2 : a.pages.getD i64Max = b.pages.getD i64Max := congrArg Prod.snd h
  rw [browseLe_iff]
  exact ⟨fun hbv => by rw [h1]; exact hbv, fun _ => le_of_eq h2⟩

/-- Example record: available, 300 pages. -/
def exAvail300 : BrowseResult :=
  ⟨"t1", "a1", some 300, [], "l1", 1, true, none, none, none, none, none, [],
    none, none, "", none⟩

/-- Example record: unavailable, 100 pages. -/
def exUnavail100 : BrowseResult :=
  ⟨"t2", "a2", some 100, [], "l2", 2, false, none, none, none, none, none, [],
    none, none, "", none⟩

/-- Example record: available, unknown page count. -/
def exAvailNone : BrowseResult :=
  ⟨"t3", "a3", none, [], "l3", 3, true, none, none, none, none, none, [],
    none, none, "", none⟩

/-- **C8.** Aggregator sort order (`src/browse.rs` lines 212-219): for every
input the output is a permutation of it, totally ordered with every
available-now item before every unavailable one and, within equal
availability, by ascending page count where an absent count sorts as
`i64::MAX` (last in its group); the sort is stable (items with equal sort
key keep their input order) and deterministic (it is a function of the
input); and the inputs [available/300, unavailable/100, available/none]
come out as [300, none, 100]. -/
theorem browse_sort_order :
    (∀ l : List BrowseResult,
      (sortResults l).Perm l
      ∧ (sortResults l).Pairwise (fun a b =>
          (b.is_available = true → a.is_available = true)
          ∧ (a.is_available = b.is_available →
              a.pages.getD i64Max ≤ b.pages.getD i64Max))
      ∧ ∀ k : Bool × Int,
          (sortResults l).filter (fun x => browseKey x == k)
            = l.filter (fun x => browseKey x == k))
    ∧ sortResults [exAvail300, exUnavail100, exAvailNone]
        = [exAvail300, exAvailNone, exUnavail100] := by
  constructor
  · intro l
    refine ⟨List.mergeSort_perm l browseLe, ?_, ?_⟩
    · exact (List.sorted_mergeSort browseLe_trans browseLe_total l).imp
        (fun h => (browseLe_iff _ _).mp h)
    · intro k
      have hsubl : List.Sublist (l.filter (fun x => browseKey x == k)) l :=
        List.filter_sublist l
      have hpair : (l.filter (fun x => browseKey x == k)).Pairwise
          (fun a b => browseLe a b = true) := by
        apply List.pairwise_of_forall_mem_list
        intro a ha b hb
        have hka := (List.mem_filter.mp ha).2
        have hkb := (List.mem_filter.mp hb).2
        exact browseLe_of_key_eq a b ((beq_iff_eq.mp hka).trans (beq_iff_eq.mp hkb).symm)
      have hs : List.Sublist (l.filter (fun x => browseKey x == k))
          (List.mergeSort l browseLe) :=
        List.sublist_mergeSort browseLe_trans browseLe_total hpair hsubl
      have hs2 : List.Sublist (l.filter (fun x => browseKey x == k))
          ((List.mergeSort l browseLe).filter (fun x => browseKey x == k)) := by
        have hf := hs.filter (fun x => browseKey x == k)
        rwa [List.filter_filter,
          show (fun a => (browseKey a == k) && (browseKey a == k))
            = (fun x => browseKey x == k) from funext (fun a => Bool.and_self _)] at hf
      have hperm : List.Perm
          ((List.mergeSort l browseLe).filter (fun x => browseKey x == k))
          (l.filter (fun x => browseKey x == k)) :=
        (List.mergeSort_perm l browseLe).filter _
      exact (hs2.eq_of_length hperm.length_eq.symm).symm
  · show List.mergeSort _ browseLe = _
    simp [List.mergeSort, List.merge, browseLe, browseCmp, cmpBool, cmpInt,
      Ordering.then, exAvail300, exUnavail100, exAvailNone, i64Max,
      show (Ordering.lt != Ordering.gt) = true from rfl,
      show (Ordering.eq != Ordering.gt) = true from rfl,
      show (Ordering.gt != Ordering.gt) = false from rfl]
